import Mathlib

/-!
Verification of the cooperative task scheduler of the blog_os kernel
(src/task/executor.rs, src/task/keyboard.rs, src/task/mod.rs).

Shallow embedding conventions:
* `crossbeam_queue::ArrayQueue<T>` is modelled as a fixed-capacity FIFO list
  (front of the list = front of the queue).  `push` returns `none` when the
  queue is full (the `Err` case of `ArrayQueue::push`); `pop` returns `none`
  when it is empty.
* A Rust `panic!` / `.expect(..)` is modelled by an operation returning
  `none` (`Option`); `some` is normal completion.
* `BTreeMap<TaskId, Task>` is modelled as an association list with the
  operations the executor uses: lookup, insert-returning-previous, erase.
* A task's boxed future is opaque to the executor; it is modelled by a
  script (`List (Nat × PollR)`): each poll consumes one entry giving the
  number of waker invocations the future makes during that poll and the
  readiness it returns.  A future polled past its script stays pending.
* Interrupt interleavings are modelled by explicit lists of events delivered
  inside the window where the source permits them (interrupts enabled).
-/

set_option maxRecDepth 100000

namespace BlogOS

/-- Model of `crossbeam_queue::ArrayQueue`: bounded FIFO, fixed capacity. -/
structure ArrayQueue (α : Type) where
  cap : Nat
  data : List α
deriving DecidableEq, Repr

/-- Model of `ArrayQueue::new(cap)`: empty queue of the given capacity. -/
def ArrayQueue.new (α : Type) (cap : Nat) : ArrayQueue α := ⟨cap, []⟩

/-- Model of `ArrayQueue::push`: appends at the back; fails (`none`) when full. -/
def ArrayQueue.push {α : Type} (q : ArrayQueue α) (x : α) : Option (ArrayQueue α) :=
  if q.data.length < q.cap then some ⟨q.cap, q.data ++ [x]⟩ else none

/-- Model of `ArrayQueue::pop`: removes from the front; fails (`none`) when empty. -/
def ArrayQueue.pop {α : Type} (q : ArrayQueue α) : Option (α × ArrayQueue α) :=
  match q.data with
  | [] => none
  | x :: rest => some (x, ⟨q.cap, rest⟩)

/-- Model of `ArrayQueue::is_empty`. -/
def ArrayQueue.isEmpty {α : Type} (q : ArrayQueue α) : Bool := q.data.isEmpty

/-- The queue holds `cap` elements: the next push fails. -/
def ArrayQueue.isFull {α : Type} (q : ArrayQueue α) : Bool := q.cap ≤ q.data.length

/-- Model of `BTreeMap` lookup on an association list. -/
def alookup {β : Type} (l : List (Nat × β)) (k : Nat) : Option β :=
  match l with
  | [] => none
  | (k2, v) :: rest => if k2 = k then some v else alookup rest k

/-- Model of `BTreeMap::insert`: returns the previous value at the key (if any) and
the updated map (replacing in place, appending new keys at the end). -/
def ainsert {β : Type} (l : List (Nat × β)) (k : Nat) (v : β) :
    Option β × List (Nat × β) :=
  match l with
  | [] => (none, [(k, v)])
  | (k2, v2) :: rest =>
    if k2 = k then (some v2, (k, v) :: rest)
    else ((ainsert rest k v).1, (k2, v2) :: (ainsert rest k v).2)

/-- Model of `BTreeMap::remove` (the executor ignores the returned value). -/
def aerase {β : Type} (l : List (Nat × β)) (k : Nat) : List (Nat × β) :=
  match l with
  | [] => []
  | (k2, v) :: rest => if k2 = k then aerase rest k else (k2, v) :: aerase rest k

theorem ainsert_fst {β : Type} (l : List (Nat × β)) (k : Nat) (v : β) :
    (ainsert l k v).1 = alookup l k := by
  induction l with
  | nil => rfl
  | cons hd tl ih =>
    obtain ⟨k2, v2⟩ := hd
    by_cases h : k2 = k <;> simp [ainsert, alookup, h, ih]

theorem alookup_ainsert_self {β : Type} (l : List (Nat × β)) (k : Nat) (v : β) :
    alookup (ainsert l k v).2 k = some v := by
  induction l with
  | nil => simp [ainsert, alookup]
  | cons hd tl ih =>
    obtain ⟨k2, v2⟩ := hd
    by_cases h : k2 = k <;> simp [ainsert, alookup, h, ih]

theorem alookup_ainsert_ne {β : Type} (l : List (Nat × β)) (k k2 : Nat) (v : β)
    (h : k2 ≠ k) : alookup (ainsert l k v).2 k2 = alookup l k2 := by
  induction l with
  | nil => simp [ainsert, alookup, Ne.symm h]
  | cons hd tl ih =>
    obtain ⟨k3, v3⟩ := hd
    by_cases h3 : k3 = k
    · subst h3
      simp [ainsert, alookup, Ne.symm h]
    · simp only [ainsert, if_neg h3]
      by_cases h4 : k3 = k2 <;> simp [alookup, h4, ih]

theorem alookup_aerase_self {β : Type} (l : List (Nat × β)) (k : Nat) :
    alookup (aerase l k) k = none := by
  induction l with
  | nil => rfl
  | cons hd tl ih =>
    obtain ⟨k2, v2⟩ := hd
    by_cases h : k2 = k <;> simp [aerase, alookup, h, ih]

theorem alookup_aerase_ne {β : Type} (l : List (Nat × β)) (k k2 : Nat)
    (h : k2 ≠ k) : alookup (aerase l k) k2 = alookup l k2 := by
  induction l with
  | nil => rfl
  | cons hd tl ih =>
    obtain ⟨k3, v3⟩ := hd
    by_cases h3 : k3 = k
    · subst h3
      simp [aerase, alookup, Ne.symm h, ih]
    · simp only [aerase, if_neg h3]
      by_cases h4 : k3 = k2 <;> simp [alookup, h4, ih]

/-- Readiness reported by one poll of a future (`core::task::Poll<()>`). -/
inductive PollR
  | ready
  | pending
deriving DecidableEq, Repr

/-- Model of `TaskId::new`: `NEXT_ID.fetch_add(1, Ordering::Relaxed)` on a process-wide
`AtomicU64` starting at 0.  The argument is the current counter value; the
result is the returned id (the old counter) and the new counter value, which
wraps at 2^64 as `fetch_add` does on `AtomicU64`. -/
def TaskId.new (c : Nat) : Nat × Nat := (c, (c + 1) % 2 ^ 64)

/-- Counter value of the id-generating atomic after `n` calls to
`TaskId.new`, starting from its initial value 0. -/
def counterAfter : Nat → Nat
  | 0 => 0
  | n + 1 => (TaskId.new (counterAfter n)).2

/-- The id returned by the `n`-th (0-based) call to `TaskId.new` in a
process execution. -/
def idOfCall (n : Nat) : Nat := (TaskId.new (counterAfter n)).1

/-- A `Task`: stable id plus its boxed future, the latter modelled as an
opaque script of poll outcomes (wake invocations made during the poll,
readiness returned). -/
structure Task where
  id : Nat
  fut : List (Nat × PollR)
deriving DecidableEq, Repr

/-- Model of `Task::new`: assigns the next id from the atomic counter and boxes the
future.  Returns the task and the new counter value. -/
def Task.new (c : Nat) (fut : List (Nat × PollR)) : Task × Nat :=
  (⟨(TaskId.new c).1, fut⟩, (TaskId.new c).2)

/-- Model of `Task::poll` via `Future::poll`: consumes the next scripted outcome.
A future polled past its script stays pending (the executor never polls a
completed future, so this case is unobservable in well-formed runs). -/
def Task.poll (t : Task) : Nat × PollR × Task :=
  match t.fut with
  | [] => (0, PollR.pending, t)
  | (w, r) :: rest => (w, r, { t with fut := rest })

/-- Executor state: `tasks: BTreeMap<TaskId, Task>`, the shared
`task_queue: Arc<ArrayQueue<TaskId>>`, and `waker_cache: BTreeMap<TaskId,
Waker>`.  A cached `TaskWaker` is fully determined by the id it is bound to
(its other field is the shared queue), so the cache is modelled by the list
of ids holding a cached waker. -/
structure Executor where
  tasks : List (Nat × Task)
  task_queue : ArrayQueue Nat
  waker_cache : List Nat
deriving DecidableEq, Repr

/-- Model of `Executor::new`: empty maps, ready-queue of capacity 100. -/
def Executor.new : Executor := ⟨[], ArrayQueue.new Nat 100, []⟩

/-- Model of `TaskWaker::wake_task`: pushes the bound id onto the shared ready-queue;
`none` models the `expect("task_queue full")` panic. -/
def TaskWaker.wake_task (task_queue : ArrayQueue Nat) (task_id : Nat) :
    Option (ArrayQueue Nat) :=
  task_queue.push task_id

/-- Model of `Executor::spawn`: insert into `tasks` (panicking if the id was already
present), then push the id onto the ready-queue (panicking if full).
`none` models either panic. -/
def Executor.spawn (e : Executor) (t : Task) : Option Executor :=
  if (ainsert e.tasks t.id t).1.isSome then none
  else
    match e.task_queue.push t.id with
    | none => none
    | some q => some ⟨(ainsert e.tasks t.id t).2, q, e.waker_cache⟩

/-- Performs `n` invocations of the task's waker during one poll, each a
`TaskWaker.wake_task` on the shared queue; `none` models the panic on a
full queue. -/
def pushN (q : ArrayQueue Nat) (id : Nat) : Nat → Option (ArrayQueue Nat)
  | 0 => some q
  | n + 1 =>
    match TaskWaker.wake_task q id with
    | none => none
    | some q2 => pushN q2 id n

/-- Outcome of one iteration of the `while let Ok(task_id) = task_queue.pop()`
loop body in `Executor::run_ready_tasks`. -/
inductive StepRes
  | drained (e : Executor)
  | panicked
  | stepped (e : Executor)
deriving DecidableEq, Repr

/-- One iteration of the drain loop of `Executor::run_ready_tasks`:
pop an id (loop exits when the pop fails); skip it if it maps to no live
task; otherwise ensure a cached waker exists (`waker_cache.entry(..)
.or_insert_with(..)`), poll the task with a context built from that waker
(the future's wake invocations push the id back onto the queue), and on
`Ready` remove the task and its cached waker, on `Pending` keep both (the
polled future's new state is stored back in place via the `get_mut`
reference). -/
def runReadyStep (e : Executor) : StepRes :=
  match e.task_queue.pop with
  | none => StepRes.drained e
  | some (task_id, q1) =>
    match alookup e.tasks task_id with
    | none => StepRes.stepped { e with task_queue := q1 }
    | some task =>
      match task.poll with
      | (w, PollR.ready, _) =>
        match pushN q1 task_id w with
        | none => StepRes.panicked
        | some q2 =>
          StepRes.stepped ⟨aerase e.tasks task_id, q2,
            List.filter (fun x => x != task_id)
              (if task_id ∈ e.waker_cache then e.waker_cache
               else e.waker_cache ++ [task_id])⟩
      | (w, PollR.pending, t2) =>
        match pushN q1 task_id w with
        | none => StepRes.panicked
        | some q2 =>
          StepRes.stepped ⟨(ainsert e.tasks task_id t2).2, q2,
            if task_id ∈ e.waker_cache then e.waker_cache
            else e.waker_cache ++ [task_id]⟩

/-- Model of `Executor::run_ready_tasks`: iterate `runReadyStep` until the queue is
drained.  `fuel` bounds the iteration (the source loop has no bound); `none`
is fuel exhaustion or a waker panic. -/
def run_ready_tasks : Nat → Executor → Option Executor
  | 0, _ => none
  | fuel + 1, e =>
    match runReadyStep e with
    | StepRes.drained e2 => some e2
    | StepRes.panicked => none
    | StepRes.stepped e2 => run_ready_tasks fuel e2

/-- Model of `Executor::sleep_if_idle` with interrupts already disabled: the halt
decision.  Returns `true` when `task_queue.is_empty()` holds at that moment,
i.e. the `enable_and_hlt` branch is taken; `false` means interrupts are
simply re-enabled and the loop re-polls.  The queue is not modified. -/
def sleep_if_idle (e : Executor) : Bool := e.task_queue.isEmpty

/-- Deliver a list of wake-handle invocations (interrupt context) in order;
`none` models the `expect("task_queue full")` panic of `wake_task`. -/
def pushAll (q : ArrayQueue Nat) : List Nat → Option (ArrayQueue Nat)
  | [] => some q
  | id :: rest =>
    match TaskWaker.wake_task q id with
    | none => none
    | some q2 => pushAll q2 rest

/-- The idle transition of `Executor::run`: between the end of
`run_ready_tasks` and `interrupts::disable()` interrupts are enabled, so any
wake-handle invocations delivered in that window (`wakes`) push their ids
first; then interrupts are disabled and the halt decision of `sleep_if_idle`
is taken on the resulting queue.  `enable_and_hlt` re-enables interrupts and
halts atomically, so no wake can be delivered between the emptiness check
and the halt.  Returns the halt decision and the executor state seen by the
next `run_ready_tasks`. -/
def idleTransition (e : Executor) (wakes : List Nat) : Option (Bool × Executor) :=
  match pushAll e.task_queue wakes with
  | none => none
  | some q1 => some (sleep_if_idle { e with task_queue := q1 },
                     { e with task_queue := q1 })

/-- Model of `Executor::run`: the infinite loop `run_ready_tasks(); sleep_if_idle()`,
bounded by `fuel` iterations; `wakeSched n` gives the wakes delivered during
the `n`-th idle window. -/
def Executor.run (wakeSched : Nat → List Nat) (innerFuel : Nat) :
    Nat → Executor → Option Executor
  | 0, e => some e
  | n + 1, e =>
    match run_ready_tasks innerFuel e with
    | none => none
    | some e1 =>
      match idleTransition e1 (wakeSched n) with
      | none => none
      | some (_, e2) => Executor.run wakeSched innerFuel n e2

/-- The two diagnostic lines `add_scancode` can print. -/
inductive Diag
  | queueFull
  | queueUninit
deriving DecidableEq, Repr

/-- State of the interrupt-to-async bridge in `task/keyboard.rs`:
`SCANCODE_QUEUE` (a `OnceCell<ArrayQueue<u8>>`: `none` = uninitialized),
`WAKER` (a `futures_util::task::AtomicWaker`, holding at most one registered
waker, modelled by an abstract waker token), plus the observable event
history: diagnostics printed and waker invocations made (in order). -/
structure KBState where
  queue : Option (ArrayQueue Nat)
  waker : Option Nat
  diags : List Diag
  wakes : List Nat
deriving DecidableEq, Repr

/-- Model of `add_scancode`, the interrupt entry point: if the queue is
uninitialized, print a diagnostic and drop the byte; if the push fails
(queue full), print a diagnostic and drop the byte; on a successful push,
`WAKER.wake()` takes the registered waker (if any) out of the slot and
invokes it. -/
def add_scancode (s : KBState) (scancode : Nat) : KBState :=
  match s.queue with
  | none => { s with diags := s.diags ++ [Diag.queueUninit] }
  | some q =>
    match q.push scancode with
    | none => { s with diags := s.diags ++ [Diag.queueFull] }
    | some q2 =>
      match s.waker with
      | none => { s with queue := some q2 }
      | some w => { s with queue := some q2, waker := none, wakes := s.wakes ++ [w] }

/-- Model of `ScancodeStream::new`: `SCANCODE_QUEUE.try_init_once(|| ArrayQueue::
new(100)).expect(..)` — initializes the queue with capacity 100 on the
first call; `none` models the panic on a second call. -/
def ScancodeStream.new (s : KBState) : Option KBState :=
  match s.queue with
  | some _ => none
  | none => some { s with queue := some (ArrayQueue.new Nat 100) }

/-- Result of `ScancodeStream::poll_next`. -/
inductive PollNextR
  | ready (scancode : Nat)
  | pending
deriving DecidableEq, Repr

/-- Model of `ScancodeStream::poll_next`: panics (`none`) if the queue is
uninitialized; otherwise a fast-path pop (returning the byte without
touching the waker slot); if empty, `WAKER.register(cx.waker())`
(overwriting any previous registration), then one more pop — on success
`WAKER.take()` clears the slot and the byte is returned, otherwise
`Poll::Pending`.  `cx` is the caller's waker token.  `mid` lists the
scancodes delivered by keyboard interrupts (`add_scancode`) inside the race
window between the registration and the second pop; `mid = []` is the
interleaving-free execution. -/
def ScancodeStream.poll_next (s : KBState) (cx : Nat) (mid : List Nat) :
    Option (KBState × PollNextR) :=
  match s.queue with
  | none => none
  | some q =>
    match q.pop with
    | some (b, q1) => some ({ s with queue := some q1 }, PollNextR.ready b)
    | none =>
      match (mid.foldl add_scancode { s with waker := some cx }).queue with
      | none => none
      | some q2 =>
        match q2.pop with
        | some (b, q3) =>
          some ({ mid.foldl add_scancode { s with waker := some cx } with
                    queue := some q3, waker := none }, PollNextR.ready b)
        | none => some (mid.foldl add_scancode { s with waker := some cx },
                        PollNextR.pending)

/-- Repeatedly poll the stream (without interrupt interference), collecting
the bytes yielded until the first `Pending` or panic; at most `n` polls. -/
def drainStream (cx : Nat) : Nat → KBState → List Nat × KBState
  | 0, s => ([], s)
  | n + 1, s =>
    match ScancodeStream.poll_next s cx [] with
    | some (s2, PollNextR.ready b) =>
      (b :: (drainStream cx n s2).1, (drainStream cx n s2).2)
    | _ => ([], s)

theorem pop_eq_none_iff {α : Type} (q : ArrayQueue α) :
    q.pop = none ↔ q.data = [] := by
  obtain ⟨c, d⟩ := q
  cases d <;> simp [ArrayQueue.pop]

theorem pop_eq_some {α : Type} {q q2 : ArrayQueue α} {x : α}
    (h : q.pop = some (x, q2)) : q2.cap = q.cap ∧ q.data = x :: q2.data := by
  obtain ⟨c, d⟩ := q
  cases d with
  | nil => cases h
  | cons y ys =>
    rw [ArrayQueue.pop] at h
    cases h
    exact ⟨rfl, rfl⟩

theorem push_eq_none_iff {α : Type} (q : ArrayQueue α) (x : α) :
    q.push x = none ↔ q.cap ≤ q.data.length := by
  rw [ArrayQueue.push]
  by_cases h : q.data.length < q.cap
  · simp [h]
  · simp [h]
    omega

theorem push_eq_some {α : Type} {q q2 : ArrayQueue α} {x : α}
    (h : q.push x = some q2) :
    q2.cap = q.cap ∧ q2.data = q.data ++ [x] ∧ q.data.length < q.cap := by
  rw [ArrayQueue.push] at h
  by_cases hlt : q.data.length < q.cap
  · rw [if_pos hlt] at h
    cases h
    exact ⟨rfl, rfl, hlt⟩
  · rw [if_neg hlt] at h
    cases h

theorem isFull_iff {α : Type} (q : ArrayQueue α) :
    q.isFull = true ↔ q.cap ≤ q.data.length := by
  simp [ArrayQueue.isFull]

theorem pushAll_eq_some {l : List Nat} :
    ∀ {q q2 : ArrayQueue Nat}, pushAll q l = some q2 →
      q2.cap = q.cap ∧ q2.data = q.data ++ l := by
  induction l with
  | nil =>
    intro q q2 h
    rw [pushAll] at h
    cases h
    simp
  | cons id rest ih =>
    intro q q2 h
    rw [pushAll, TaskWaker.wake_task] at h
    cases hp : q.push id with
    | none => rw [hp] at h; cases h
    | some q1 =>
      rw [hp] at h
      obtain ⟨hc, hd, _⟩ := push_eq_some hp
      obtain ⟨hc2, hd2⟩ := ih h
      refine ⟨hc2.trans hc, ?_⟩
      rw [hd2, hd]
      simp

theorem pushN_eq_some {n : Nat} :
    ∀ {q q2 : ArrayQueue Nat} {id : Nat}, pushN q id n = some q2 →
      q2.cap = q.cap := by
  induction n with
  | zero =>
    intro q q2 id h
    rw [pushN] at h
    cases h
    rfl
  | succ m ih =>
    intro q q2 id h
    rw [pushN, TaskWaker.wake_task] at h
    cases hp : q.push id with
    | none => rw [hp] at h; cases h
    | some q1 =>
      rw [hp] at h
      exact (ih h).trans (push_eq_some hp).1

theorem not_mem_filter_ne_self (l : List Nat) (k : Nat) :
    k ∉ List.filter (fun x => x != k) l := by
  intro h
  have := List.of_mem_filter h
  simp at this

/-- Claim C5: event-bridge round-trip.  Starting from a freshly initialized,
empty event queue (capacity 100) with no concurrent producers or consumers,
posting the bytes 0x1E, 0x30, 0x2E via `add_scancode` and then repeatedly
polling the stream yields exactly those three bytes in order, with no
duplicates and no losses; a further poll reports pending. -/
theorem C5_event_bridge_round_trip :
    ScancodeStream.new ⟨none, none, [], []⟩
      = some ⟨some (ArrayQueue.new Nat 100), none, [], []⟩ ∧
    (drainStream 7 10 (List.foldl add_scancode
        ⟨some (ArrayQueue.new Nat 100), none, [], []⟩ [0x1E, 0x30, 0x2E])).1
      = [0x1E, 0x30, 0x2E] ∧
    ScancodeStream.poll_next
        (drainStream 7 10 (List.foldl add_scancode
          ⟨some (ArrayQueue.new Nat 100), none, [], []⟩ [0x1E, 0x30, 0x2E])).2 7 []
      = some (⟨some ⟨100, []⟩, some 7, [], []⟩, PollNextR.pending) := by
  decide

/-- Claim C6: overflow of the event-bridge queue is non-fatal drop-newest.
With the queue initialized at capacity 100 and no consumer popping, posting
101 bytes leaves exactly the first 100 in FIFO order, drops the 101st,
emits exactly one diagnostic, invokes no waker when none is registered, and
in general a push that finds the queue full only emits the diagnostic: it
leaves the queue, the notifier slot and the invocation history unchanged
(so the waker is invoked only on successful pushes). -/
theorem C6_overflow_drop_newest :
    (List.foldl add_scancode ⟨some (ArrayQueue.new Nat 100), none, [], []⟩
        (List.range 101)).queue = some ⟨100, List.range 100⟩ ∧
    (List.foldl add_scancode ⟨some (ArrayQueue.new Nat 100), none, [], []⟩
        (List.range 101)).diags = [Diag.queueFull] ∧
    (List.foldl add_scancode ⟨some (ArrayQueue.new Nat 100), none, [], []⟩
        (List.range 101)).wakes = [] ∧
    (∀ (s : KBState) (q : ArrayQueue Nat) (b : Nat), s.queue = some q →
       q.push b = none →
       add_scancode s b = { s with diags := s.diags ++ [Diag.queueFull] }) := by
  refine ⟨by decide, by decide, by decide, ?_⟩
  intro s q b hq hpush
  simp [add_scancode, hq, hpush]

/-- Witness for C6: a full queue of capacity 1; the push of byte 5 is
dropped with one diagnostic, the registered waker 3 is not invoked. -/
theorem C6_witness :
    add_scancode ⟨some ⟨1, [9]⟩, some 3, [], []⟩ 5
      = ⟨some ⟨1, [9]⟩, some 3, [Diag.queueFull], []⟩ :=
  C6_overflow_drop_newest.2.2.2 ⟨some ⟨1, [9]⟩, some 3, [], []⟩ ⟨1, [9]⟩ 5 rfl rfl

/-- Counterexample to claim C7 as stated: the consumer's read step
(`ScancodeStream::poll_next`) on an uninitialized queue does not diagnose
and continue — it panics (`expect("scancode queue not initialized")`,
modelled by `none`), so it never returns a result. -/
theorem C7_counterexample :
    ScancodeStream.poll_next ⟨none, none, [], []⟩ 0 [] = none ∧
    ¬ ∃ s2 r, ScancodeStream.poll_next ⟨none, none, [], []⟩ 0 [] = some (s2, r) := by
  refine ⟨rfl, ?_⟩
  rintro ⟨s2, r, h⟩
  simp [ScancodeStream.poll_next] at h

/-- Claim C7 (amended): posting to an uninitialized queue emits a diagnostic
and continues without crashing (the byte is dropped, nothing else changes);
the consumer's read step on an uninitialized queue, by contrast, panics. -/
theorem C7_uninit_behavior (s : KBState) (b cx : Nat) (mid : List Nat)
    (h : s.queue = none) :
    add_scancode s b = { s with diags := s.diags ++ [Diag.queueUninit] } ∧
    ScancodeStream.poll_next s cx mid = none := by
  constructor
  · simp [add_scancode, h]
  · simp [ScancodeStream.poll_next, h]

/-- Witness for the amended C7 at a concrete uninitialized state. -/
theorem C7_witness :
    add_scancode ⟨none, some 2, [Diag.queueFull], [1]⟩ 9
      = ⟨none, some 2, [Diag.queueFull, Diag.queueUninit], [1]⟩ ∧
    ScancodeStream.poll_next ⟨none, some 2, [Diag.queueFull], [1]⟩ 4 [7] = none :=
  C7_uninit_behavior ⟨none, some 2, [Diag.queueFull], [1]⟩ 9 4 [7] rfl

/-- Claim C8: the event-bridge queue is initialized exactly once, by the
first call to `ScancodeStream::new`, with capacity 100; any call finding the
queue already initialized panics. -/
theorem C8_exactly_once_init (s : KBState) :
    (s.queue = none →
       ScancodeStream.new s
         = some { s with queue := some (ArrayQueue.new Nat 100) }) ∧
    (∀ q, s.queue = some q → ScancodeStream.new s = none) := by
  constructor
  · intro h
    simp [ScancodeStream.new, h]
  · intro q h
    simp [ScancodeStream.new, h]

/-- Claim C2: `ScancodeStream::poll_next` on an initialized queue: a first
non-blocking pop returning any available byte immediately without touching
the notifier; only on an empty queue is the caller's waker registered into
the single slot (replacing any previous registration), after which the
queue is popped exactly once more — returning the byte and clearing the
registration if that second pop succeeds (here because an interrupt
delivered a byte inside the race window), and returning pending (with the
registration in place) otherwise. -/
theorem C2_poll_next_algorithm (s : KBState) (q : ArrayQueue Nat) (cx : Nat)
    (h : s.queue = some q) :
    (∀ (b : Nat) (q1 : ArrayQueue Nat) (mid : List Nat), q.pop = some (b, q1) →
        ScancodeStream.poll_next s cx mid
          = some ({ s with queue := some q1 }, PollNextR.ready b)) ∧
    (q.pop = none →
        ScancodeStream.poll_next s cx []
          = some ({ s with waker := some cx }, PollNextR.pending)) ∧
    (∀ b : Nat, q.pop = none → 0 < q.cap →
        ScancodeStream.poll_next s cx [b]
          = some ({ s with
                      queue := some (ArrayQueue.mk q.cap [])
                      waker := none
                      wakes := s.wakes ++ [cx] }, PollNextR.ready b)) := by
  refine ⟨?_, ?_, ?_⟩
  · intro b q1 mid hpop
    simp [ScancodeStream.poll_next, h, hpop]
  · intro hpop
    simp [ScancodeStream.poll_next, h, hpop]
  · intro b hpop hcap
    have hdata : q.data = [] := (pop_eq_none_iff q).1 hpop
    obtain ⟨c, d⟩ := q
    simp only at hdata hcap
    subst hdata
    simp [ScancodeStream.poll_next, h, hpop, add_scancode, ArrayQueue.push,
          ArrayQueue.pop, hcap]

/-- Witness for C2: fast path on a non-empty queue, pending on an empty
queue, and the race where byte 3 arrives between registration and the
re-check. -/
theorem C2_witness :
    ScancodeStream.poll_next ⟨some ⟨2, [5]⟩, some 9, [], []⟩ 7 []
      = some (⟨some ⟨2, []⟩, some 9, [], []⟩, PollNextR.ready 5) ∧
    ScancodeStream.poll_next ⟨some ⟨2, []⟩, some 9, [], []⟩ 7 []
      = some (⟨some ⟨2, []⟩, some 7, [], []⟩, PollNextR.pending) ∧
    ScancodeStream.poll_next ⟨some ⟨2, []⟩, some 9, [], []⟩ 7 [3]
      = some (⟨some ⟨2, []⟩, none, [], [7]⟩, PollNextR.ready 3) :=
  ⟨(C2_poll_next_algorithm ⟨some ⟨2, [5]⟩, some 9, [], []⟩ ⟨2, [5]⟩ 7 rfl).1
      5 ⟨2, []⟩ [] rfl,
   (C2_poll_next_algorithm ⟨some ⟨2, []⟩, some 9, [], []⟩ ⟨2, []⟩ 7 rfl).2.1 rfl,
   (C2_poll_next_algorithm ⟨some ⟨2, []⟩, some 9, [], []⟩ ⟨2, []⟩ 7 rfl).2.2
      3 rfl (by decide)⟩

/-- Claim C4: `Executor::spawn(task)` panics exactly when the task's id is
already a key of the task mapping or the ready-queue is at capacity;
otherwise it inserts the task under its id, pushes the id onto the
ready-queue, and changes nothing else (other keys, queue capacity, waker
cache all preserved). -/
theorem C4_spawn_contract (e : Executor) (t : Task) :
    (e.spawn t = none ↔
       (alookup e.tasks t.id).isSome = true ∨ e.task_queue.isFull = true) ∧
    (∀ e2, e.spawn t = some e2 →
       alookup e2.tasks t.id = some t ∧
       (∀ k, k ≠ t.id → alookup e2.tasks k = alookup e.tasks k) ∧
       e2.task_queue.cap = e.task_queue.cap ∧
       e2.task_queue.data = e.task_queue.data ++ [t.id] ∧
       e2.waker_cache = e.waker_cache) := by
  have hfst := ainsert_fst e.tasks t.id t
  constructor
  · constructor
    · intro hnone
      rw [Executor.spawn] at hnone
      by_cases hdup : (ainsert e.tasks t.id t).1.isSome = true
      · left
        rw [← hfst]
        exact hdup
      · rw [if_neg hdup] at hnone
        right
        cases hp : e.task_queue.push t.id with
        | none => exact (isFull_iff _).2 ((push_eq_none_iff _ _).1 hp)
        | some q =>
          rw [hp] at hnone
          cases hnone
    · intro hor
      rw [Executor.spawn]
      rcases hor with hdup | hfull
      · rw [if_pos (show (ainsert e.tasks t.id t).1.isSome = true by
          rw [hfst]; exact hdup)]
      · by_cases hdup : (ainsert e.tasks t.id t).1.isSome = true
        · rw [if_pos hdup]
        · rw [if_neg hdup,
              (push_eq_none_iff e.task_queue t.id).2 ((isFull_iff _).1 hfull)]
  · intro e2 hsome
    rw [Executor.spawn] at hsome
    by_cases hdup : (ainsert e.tasks t.id t).1.isSome = true
    · rw [if_pos hdup] at hsome
      cases hsome
    · rw [if_neg hdup] at hsome
      cases hp : e.task_queue.push t.id with
      | none =>
        rw [hp] at hsome
        cases hsome
      | some q =>
        rw [hp] at hsome
        cases hsome
        obtain ⟨hc, hd, _⟩ := push_eq_some hp
        exact ⟨alookup_ainsert_self _ _ _,
               fun k hk => alookup_ainsert_ne _ _ _ _ hk,
               hc, hd, rfl⟩

/-- Witness for C4: spawning task 0 into a fresh executor succeeds and
produces exactly the expected mapping, queue and cache. -/
theorem C4_witness :
    alookup (⟨[(0, ⟨0, []⟩)], ⟨100, [0]⟩, []⟩ : Executor).tasks 0
      = some ⟨0, []⟩ ∧
    (⟨[(0, ⟨0, []⟩)], ⟨100, [0]⟩, []⟩ : Executor).task_queue.data
      = Executor.new.task_queue.data ++ [0] ∧
    (⟨[(0, ⟨0, []⟩)], ⟨100, [0]⟩, []⟩ : Executor).waker_cache
      = Executor.new.waker_cache :=
  ⟨((C4_spawn_contract Executor.new ⟨0, []⟩).2 _ rfl).1,
   ((C4_spawn_contract Executor.new ⟨0, []⟩).2 _ rfl).2.2.2.1,
   ((C4_spawn_contract Executor.new ⟨0, []⟩).2 _ rfl).2.2.2.2⟩

/-- Witness for C8: a first construction initializes a capacity-100 queue,
a second construction panics. -/
theorem C8_witness :
    ScancodeStream.new ⟨none, some 1, [], []⟩
      = some ⟨some (ArrayQueue.new Nat 100), some 1, [], []⟩ ∧
    ScancodeStream.new ⟨some (ArrayQueue.new Nat 100), some 1, [], []⟩ = none :=
  ⟨(C8_exactly_once_init ⟨none, some 1, [], []⟩).1 rfl,
   (C8_exactly_once_init ⟨some (ArrayQueue.new Nat 100), some 1, [], []⟩).2
     (ArrayQueue.new Nat 100) rfl⟩

/-- Claim C10: the executor's ready-queue has fixed capacity exactly 100,
set in `Executor::new`; a push that finds 100 entries queued — from `spawn`
or from a wake-handle invocation — panics; no operation changes the
capacity, and a successful push never exceeds it. -/
theorem C10_ready_queue_capacity :
    Executor.new.task_queue.cap = 100 ∧
    (∀ q : ArrayQueue Nat, q.cap = 100 → q.data.length = 100 →
       (∀ id, TaskWaker.wake_task q id = none) ∧
       (∀ (e : Executor) (t : Task), e.task_queue = q → e.spawn t = none)) ∧
    (∀ (q q2 : ArrayQueue Nat) (id : Nat), TaskWaker.wake_task q id = some q2 →
       q2.cap = q.cap ∧ q2.data.length ≤ q.cap) ∧
    (∀ (e : Executor) (t : Task) (e2 : Executor), e.spawn t = some e2 →
       e2.task_queue.cap = e.task_queue.cap) ∧
    (∀ (e e2 : Executor), runReadyStep e = StepRes.stepped e2 →
       e2.task_queue.cap = e.task_queue.cap) := by
  refine ⟨rfl, ?_, ?_, ?_, ?_⟩
  · intro q hcap hlen
    constructor
    · intro id
      rw [TaskWaker.wake_task]
      exact (push_eq_none_iff _ _).2 (by omega)
    · intro e t he
      rw [Executor.spawn]
      by_cases hdup : (ainsert e.tasks t.id t).1.isSome = true
      · rw [if_pos hdup]
      · rw [if_neg hdup, he, (push_eq_none_iff q t.id).2 (by omega)]
  · intro q q2 id h
    rw [TaskWaker.wake_task] at h
    obtain ⟨hc, hd, hlt⟩ := push_eq_some h
    refine ⟨hc, ?_⟩
    rw [hd]
    simp
    omega
  · intro e t e2 h
    rw [Executor.spawn] at h
    by_cases hdup : (ainsert e.tasks t.id t).1.isSome = true
    · rw [if_pos hdup] at h
      cases h
    · rw [if_neg hdup] at h
      cases hp : e.task_queue.push t.id with
      | none =>
        rw [hp] at h
        cases h
      | some q =>
        rw [hp] at h
        cases h
        exact (push_eq_some hp).1
  · intro e e2 h
    cases hpop : e.task_queue.pop with
    | none => simp [runReadyStep, hpop] at h
    | some p =>
      obtain ⟨task_id, q1⟩ := p
      have hq1 : q1.cap = e.task_queue.cap := (pop_eq_some hpop).1
      cases hlook : alookup e.tasks task_id with
      | none =>
        simp only [runReadyStep, hpop, hlook] at h
        cases h
        exact hq1
      | some task =>
        rcases hp : task.poll with ⟨w, r, t2⟩
        cases r with
        | ready =>
          cases hpush : pushN q1 task_id w with
          | none => simp [runReadyStep, hpop, hlook, hp, hpush] at h
          | some q2 =>
            simp only [runReadyStep, hpop, hlook, hp, hpush] at h
            cases h
            exact (pushN_eq_some hpush).trans hq1
        | pending =>
          cases hpush : pushN q1 task_id w with
          | none => simp [runReadyStep, hpop, hlook, hp, hpush] at h
          | some q2 =>
            simp only [runReadyStep, hpop, hlook, hp, hpush] at h
            cases h
            exact (pushN_eq_some hpush).trans hq1

/-- Witness for C10: a wake and a spawn against a full capacity-100 queue
both panic; a fresh executor's queue has capacity 100. -/
theorem C10_witness :
    TaskWaker.wake_task ⟨100, List.replicate 100 7⟩ 5 = none ∧
    Executor.spawn ⟨[], ⟨100, List.replicate 100 7⟩, []⟩ ⟨3, []⟩ = none ∧
    Executor.new.task_queue.cap = 100 :=
  ⟨(C10_ready_queue_capacity.2.1 ⟨100, List.replicate 100 7⟩ rfl
      (by decide)).1 5,
   (C10_ready_queue_capacity.2.1 ⟨100, List.replicate 100 7⟩ rfl
      (by decide)).2 ⟨[], ⟨100, List.replicate 100 7⟩, []⟩ ⟨3, []⟩ rfl,
   C10_ready_queue_capacity.1⟩

/-- Claim C3: for every task id popped by the executor's drain loop — if the
id is not a key of the task mapping, it is skipped with no change to the
mapping or the waker cache (so a wake for an already-retired id never
causes a poll or any state change); if the polled task reports completion,
its entries in both the task mapping and the waker cache are removed in
that same step; if it reports still-suspended, its task entry (with the
polled future stored back in place) and its cached waker both remain. -/
theorem C3_drain_step_cases (e : Executor) (task_id : Nat)
    (q1 : ArrayQueue Nat) (hpop : e.task_queue.pop = some (task_id, q1)) :
    (alookup e.tasks task_id = none →
       runReadyStep e = StepRes.stepped ⟨e.tasks, q1, e.waker_cache⟩) ∧
    (∀ (task : Task) (e2 : Executor), alookup e.tasks task_id = some task →
       runReadyStep e = StepRes.stepped e2 →
       (task.poll.2.1 = PollR.ready →
          alookup e2.tasks task_id = none ∧ task_id ∉ e2.waker_cache) ∧
       (task.poll.2.1 = PollR.pending →
          alookup e2.tasks task_id = some task.poll.2.2 ∧
          task_id ∈ e2.waker_cache ∧
          e2.waker_cache = (if task_id ∈ e.waker_cache then e.waker_cache
                            else e.waker_cache ++ [task_id]))) := by
  constructor
  · intro hlook
    simp only [runReadyStep, hpop, hlook]
  · intro task e2 hlook h
    rcases hp : task.poll with ⟨w, r, t2⟩
    cases r with
    | ready =>
      cases hpush : pushN q1 task_id w with
      | none => simp [runReadyStep, hpop, hlook, hp, hpush] at h
      | some q2 =>
        simp only [runReadyStep, hpop, hlook, hp, hpush] at h
        cases h
        constructor
        · intro _
          exact ⟨alookup_aerase_self _ _, not_mem_filter_ne_self _ _⟩
        · intro hpend
          simp at hpend
    | pending =>
      cases hpush : pushN q1 task_id w with
      | none => simp [runReadyStep, hpop, hlook, hp, hpush] at h
      | some q2 =>
        simp only [runReadyStep, hpop, hlook, hp, hpush] at h
        cases h
        constructor
        · intro hready
          simp at hready
        · intro _
          refine ⟨?_, ?_, rfl⟩
          · exact alookup_ainsert_self _ _ _
          · by_cases hmem : task_id ∈ e.waker_cache
            · simp [hmem]
            · simp [hmem]

/-- Witness for C3: a pending task 0 that wakes itself once during its poll
stays in the mapping (with its script advanced), gains a cached waker, and
its id is re-queued. -/
theorem C3_witness :
    alookup
      (⟨[(0, ⟨0, []⟩)], ⟨100, [0]⟩, [0]⟩ : Executor).tasks 0
      = some ⟨0, []⟩ ∧
    0 ∈ (⟨[(0, ⟨0, []⟩)], ⟨100, [0]⟩, [0]⟩ : Executor).waker_cache :=
  ⟨(((C3_drain_step_cases ⟨[(0, ⟨0, [(1, PollR.pending)]⟩)], ⟨100, [0]⟩, []⟩
        0 ⟨100, []⟩ rfl).2 ⟨0, [(1, PollR.pending)]⟩
        ⟨[(0, ⟨0, []⟩)], ⟨100, [0]⟩, [0]⟩ rfl rfl).2 rfl).1,
   (((C3_drain_step_cases ⟨[(0, ⟨0, [(1, PollR.pending)]⟩)], ⟨100, [0]⟩, []⟩
        0 ⟨100, []⟩ rfl).2 ⟨0, [(1, PollR.pending)]⟩
        ⟨[(0, ⟨0, []⟩)], ⟨100, [0]⟩, [0]⟩ rfl rfl).2 rfl).2.1⟩

/-- Claim C1: no wake is lost across the executor's idle transition.  Any
wake-handle invocations delivered after `run_ready_tasks` drains the queue
and before the halt decision (i.e. while interrupts are still enabled,
before `interrupts::disable()`) land in the queue `sleep_if_idle` inspects,
so it observes the queue non-empty and returns without halting, and the
woken id is at the front of the queue the next `run_ready_tasks` pops; the
halt branch is taken exactly when the queue is empty at the moment
interrupts are disabled (`enable_and_hlt` then re-enables and halts
atomically). -/
theorem C1_idle_no_lost_wake (e : Executor) (wakes : List Nat)
    (halted : Bool) (e2 : Executor)
    (h : idleTransition e wakes = some (halted, e2)) :
    (halted = true ↔ e2.task_queue.data = []) ∧
    e2.task_queue.data = e.task_queue.data ++ wakes ∧
    (wakes ≠ [] → halted = false) ∧
    (∀ w rest, e.task_queue.data = [] → wakes = w :: rest →
       ∃ q2, e2.task_queue.pop = some (w, q2)) := by
  rw [idleTransition] at h
  cases hpush : pushAll e.task_queue wakes with
  | none =>
    rw [hpush] at h
    cases h
  | some q1 =>
    rw [hpush] at h
    cases h
    obtain ⟨hc, hd⟩ := pushAll_eq_some hpush
    refine ⟨?_, hd, ?_, ?_⟩
    · rw [sleep_if_idle]
      simp [ArrayQueue.isEmpty]
    · intro hne
      rw [sleep_if_idle]
      simp only [ArrayQueue.isEmpty]
      rw [List.isEmpty_eq_false_iff_exists_mem]
      rcases wakes with _ | ⟨w, rest⟩
      · exact absurd rfl hne
      · exact ⟨w, by rw [hd]; simp⟩
    · intro w rest hempty hw
      subst hw
      have hq1 : q1.data = w :: rest := by rw [hd, hempty]; rfl
      obtain ⟨c1, d1⟩ := q1
      have hd1 : d1 = w :: rest := hq1
      subst hd1
      exact ⟨⟨c1, rest⟩, rfl⟩

/-- Witness for C1: a wake for id 4 delivered in the idle window on an
otherwise drained executor: no halt, and id 4 is popped next. -/
theorem C1_witness :
    (false = true ↔ ([4] : List Nat) = []) ∧
    ([4] : List Nat) = [] ++ [4] ∧
    (([4] : List Nat) ≠ [] → false = false) ∧
    ∃ q2, (ArrayQueue.mk 100 [4] : ArrayQueue Nat).pop = some (4, q2) := by
  have h := C1_idle_no_lost_wake ⟨[], ⟨100, []⟩, []⟩ [4] false
    ⟨[], ⟨100, [4]⟩, []⟩ rfl
  exact ⟨h.1, h.2.1, fun _ => rfl, h.2.2.2 4 [] rfl rfl⟩

theorem counterAfter_eq (n : Nat) : counterAfter n = n % 2 ^ 64 := by
  induction n with
  | zero => rfl
  | succ m ih =>
    rw [counterAfter, TaskId.new, ih]
    conv_rhs => rw [Nat.add_mod]
    rw [Nat.mod_eq_of_lt (show (1 : Nat) < 2 ^ 64 by norm_num)]

theorem idOfCall_eq (n : Nat) : idOfCall n = n % 2 ^ 64 := by
  rw [idOfCall, TaskId.new, counterAfter_eq]

/-- Counterexample to claim C9 as stated: `TaskId::new` uses a wrapping
`fetch_add` on an `AtomicU64`, so the id returned by call number 2^64 is 0,
the same value returned by call number 0 — ids are reused and the sequence
is not strictly increasing once the 64-bit counter wraps. -/
theorem C9_counterexample :
    idOfCall (2 ^ 64) = idOfCall 0 ∧ ¬ idOfCall 0 < idOfCall (2 ^ 64) := by
  rw [idOfCall_eq, idOfCall_eq, Nat.mod_self, Nat.zero_mod]
  exact ⟨rfl, lt_irrefl 0⟩

/-- Claim C9 (amended): TaskId generation is strictly increasing and never
reuses a value among the first 2^64 calls of a process execution (i.e. as
long as the 64-bit counter has not wrapped): for any two calls in that
range, the earlier call returns a strictly smaller id than the later one,
and no id is returned twice. -/
theorem C9_ids_increasing_before_wrap (i j : Nat) (hij : i < j)
    (hj : j < 2 ^ 64) :
    idOfCall i < idOfCall j ∧ idOfCall i ≠ idOfCall j := by
  have hi2 : idOfCall i = i := by
    rw [idOfCall_eq]
    exact Nat.mod_eq_of_lt (lt_trans hij hj)
  have hj2 : idOfCall j = j := by
    rw [idOfCall_eq]
    exact Nat.mod_eq_of_lt hj
  rw [hi2, hj2]
  exact ⟨hij, Nat.ne_of_lt hij⟩

/-- Witness for the amended C9 at calls 0 and 1. -/
theorem C9_witness : idOfCall 0 < idOfCall 1 ∧ idOfCall 0 ≠ idOfCall 1 :=
  C9_ids_increasing_before_wrap 0 1 (by norm_num) (by norm_num)

end BlogOS
